import Mathlib

/-!
# Verification of the locolive backend realtime/location core

A shallow embedding of the realtime presence and delivery layer of the
locolive backend: the geohash-bucketed feed cache keys, the
`updateLocation` HTTP handler with ghost mode and the movement-integrity
gate, the per-process connection Hub (registry, local broadcast with
non-blocking enqueue, unregister), the cross-process Router over a capped
shared stream (publish and tailing loop), and the websocket Session
read/write pumps.

Machine integers are modelled as `Nat` with explicit `% 2 ^ w` where
overflow matters; Go `float64` coordinates are modelled as exact
rationals (the claims verified here do not depend on rounding);
UUIDs are modelled as `Nat` with `toString` / `String.toNat?` standing
for `UUID.String()` / `uuid.Parse`.
-/

namespace LocoLive

/-! ## Geohash encoding

Embeds `github.com/mmcloughlin/geohash`: `Encode(lat, lng)` returns the
12-character base32 geohash, computed by mapping each coordinate into a
32-bit integer over its range, interleaving the bits (longitude in the
higher positions), keeping the top 60 bits and base32-encoding them. -/

/-- `encodeRange(x, r)`: map `x ∈ [-r, r]` to a 32-bit integer
(`uint32(p * exp232)` in the Go source, with `p = (x+r)/(2r)`). -/
def encodeRange (x r : ℚ) : Nat :=
  (Int.toNat ⌊(x + r) / (2 * r) * (2 ^ 32 : ℚ)⌋) % 2 ^ 32

/-- Spread the low `k` bits of `x`, inserting a zero between
consecutive bits (`spread` in the Go source, bit by bit). -/
def spreadBits : Nat → Nat → Nat
  | 0, _ => 0
  | k + 1, x => x % 2 + 4 * spreadBits k (x / 2)

/-- `interleave(latInt, lngInt)`: longitude bits take the odd (higher)
positions, matching `spread(x) | (spread(y) << 1)`. -/
def interleave (latInt lngInt : Nat) : Nat :=
  spreadBits 32 latInt + 2 * spreadBits 32 lngInt

/-- `EncodeInt(lat, lng)`: the full 64-bit interleaved hash. -/
def encodeInt (lat lng : ℚ) : Nat :=
  interleave (encodeRange lat 90) (encodeRange lng 180)

/-- The geohash base32 alphabet. -/
def base32chars : List Char :=
  ['0', '1', '2', '3', '4', '5', '6', '7', '8', '9',
   'b', 'c', 'd', 'e', 'f', 'g', 'h', 'j', 'k', 'm',
   'n', 'p', 'q', 'r', 's', 't', 'u', 'v', 'w', 'x', 'y', 'z']

/-- One base32 digit. -/
def b32char (n : Nat) : Char := base32chars.getD (n % 32) '0'

/-- Base32-encode the low `5 * k` bits of `x`, most significant digit
first (the `Encoding.Encode` loop in the Go source). -/
def base32enc : Nat → Nat → List Char
  | 0, _ => []
  | k + 1, x => base32enc k (x / 32) ++ [b32char x]

/-- `geohash.Encode(lat, lng)`: the 12-character geohash string
(`EncodeWithPrecision` with 12 characters: top 60 bits of the 64-bit
hash, base32-encoded). -/
def geohashEncode (lat lng : ℚ) : String :=
  ⟨base32enc 12 (encodeInt lat lng / 16)⟩

/-! ## Feed cache keys (story.go / api/story.go)

`getFeed` reads `"feed:" + userGeohash` where `userGeohash` is the
viewer's geohash truncated to 5 characters; `CreateStory` and
`DeleteStory` invalidate `"feed:" + userGeohash` where `userGeohash` is
the story's geohash truncated to 5 characters (`invalidateFeedCache`). -/

/-- Truncate a geohash to 5 characters (`if len(h) > 5 ; h = h[:5]`). -/
def truncate5 (s : String) : String :=
  if s.length > 5 then (s.toList.take 5).asString else s

/-- Truncate a geohash to `locationPrecision = 7` characters
(`updateLocation` in the location handler). -/
def truncate7 (s : String) : String :=
  if s.length > 7 then (s.toList.take 7).asString else s

/-- The feed cache key read by `getFeed` at a viewer coordinate. -/
def feedCacheKey (lat lng : ℚ) : String :=
  "feed:" ++ truncate5 (geohashEncode lat lng)

/-- `invalidateFeedCache(geohash)` deletes the key `"feed:" + geohash`;
it receives an already-truncated geohash. -/
def invalidateFeedCacheKey (gh : String) : String := "feed:" ++ gh

/-- The key `CreateStory` invalidates for a story created at
`(lat, lng)`: its own coordinates' geohash, truncated to 5. -/
def createStoryInvalidationKey (lat lng : ℚ) : String :=
  invalidateFeedCacheKey (truncate5 (geohashEncode lat lng))

/-- The key `DeleteStory` invalidates, derived from the stored
`story.Geohash` (which `CreateStory` stored as the full encode of the
story coordinates), truncated to 5. -/
def deleteStoryInvalidationKey (storedGeohash : String) : String :=
  invalidateFeedCacheKey (truncate5 storedGeohash)

/-- A flat model of the redis key/value cache: an association list. -/
def redisGet (cache : List (String × String)) (k : String) : Option String :=
  (cache.find? (fun kv => kv.1 = k)).map (fun kv => kv.2)

/-- `redis.Del(key)`: remove every binding of `k`. -/
def redisDel (cache : List (String × String)) (k : String) :
    List (String × String) :=
  cache.filter (fun kv => kv.1 ≠ k)

/-! ## The `updateLocation` handler (location handler source)

State-free embedding: the handler's external collaborators (user lookup,
the movement-integrity monitor, the store calls, the redis location
service) are supplied as an environment of oracle results, and the
handler's observable behaviour is its HTTP response together with the
ordered list of side-effecting calls it issued. -/

/-- Result of `safety.ValidateUserMovement`. -/
structure ValResult where
  allowed : Bool
  shouldBan : Bool
  deriving DecidableEq, Repr

/-- The ghost-mode fields of the user row consulted by the handler
(`IsGhostMode`, `GhostModeExpiresAt` as a nullable timestamp). -/
structure GhostUser where
  isGhostMode : Bool
  expiresValid : Bool
  expiresAt : Int
  deriving DecidableEq, Repr

/-- External results the handler observes during one request:
`userLookup = none` models `GetUserByID` returning an error; `now` is
`time.Now()`; `val` is the monitor verdict; the `Err` flags model the
failure of the corresponding store/redis call. -/
structure UpdateLocEnv where
  userLookup : Option GhostUser
  now : Int
  val : ValResult
  createLocErr : Bool
  activityErr : Bool
  redisLocErr : Bool
  deriving DecidableEq, Repr

/-- Side-effecting calls issued by `updateLocation`, in program order. -/
inductive LocAction where
  | toggleGhostOff
  | validateMovement
  | banUser
  | createLocation (geohash : String) (lat lng : ℚ)
  | updateUserActivity
  | updateRedisLocation
  deriving DecidableEq, Repr

/-- One HTTP response: status code and serialized body. -/
structure HttpResp where
  status : Nat
  body : String
  deriving DecidableEq, Repr

/-- `gin.H{"status": "updated"}` serialized. -/
def updatedBody : String := "\x7b\"status\":\"updated\"\x7d"

/-- `gin.H{"status": "ghost"}` serialized. -/
def ghostBody : String := "\x7b\"status\":\"ghost\"\x7d"

/-- A placeholder serialization for `errorResponse(err)` bodies. -/
def errBody : String := "\x7b\"error\":\"internal\"\x7d"

/-- The parsed `updateLocationRequest`. -/
structure UpdateLocReq where
  latitude : ℚ
  longitude : ℚ
  deriving DecidableEq, Repr

/-- The request binding's range constraint
(`min=-90,max=90` / `min=-180,max=180`). -/
def inRange (req : UpdateLocReq) : Prop :=
  -90 ≤ req.latitude ∧ req.latitude ≤ 90 ∧
    -180 ≤ req.longitude ∧ req.longitude ≤ 180

instance (req : UpdateLocReq) : Decidable (inRange req) := by
  unfold inRange; infer_instance

/-- The tail of the handler after the ghost-mode block: geohash the
coordinates at precision 7, run the movement-integrity check, and on
`allowed` persist the location, bump activity and the redis location
service; on `!allowed` optionally shadow-ban, then answer exactly the
success response. `pre` carries actions issued by the ghost block. -/
def updateLocationMain (req : UpdateLocReq) (env : UpdateLocEnv)
    (pre : List LocAction) : HttpResp × List LocAction :=
  let hash := truncate7 (geohashEncode req.latitude req.longitude)
  let acts := pre ++ [LocAction.validateMovement]
  if env.val.allowed = false then
    let acts := if env.val.shouldBan then acts ++ [LocAction.banUser] else acts
    (⟨200, updatedBody⟩, acts)
  else
    let acts := acts ++ [LocAction.createLocation hash req.latitude req.longitude]
    if env.createLocErr then (⟨500, errBody⟩, acts)
    else
      let acts := acts ++ [LocAction.updateUserActivity, LocAction.updateRedisLocation]
      (⟨200, updatedBody⟩, acts)

/-- The `updateLocation` handler, assuming JSON binding succeeded (the
coordinate range is enforced by the binding, so callers of this model
carry `inRange` as a hypothesis). Mirrors the ghost-mode block: a
found user in ghost mode either auto-disables (expiry set and passed:
`time.Now().After(expiry)`) and proceeds, or answers `"ghost"` without
any further call. -/
def updateLocation (req : UpdateLocReq) (env : UpdateLocEnv) :
    HttpResp × List LocAction :=
  match env.userLookup with
  | some user =>
    if user.isGhostMode then
      if user.expiresValid && decide (user.expiresAt < env.now) then
        updateLocationMain req env [LocAction.toggleGhostOff]
      else
        (⟨200, ghostBody⟩, [])
    else
      updateLocationMain req env []
  | none => updateLocationMain req env []

/-! ## Connection Hub (realtime hub source)

The registry `clients : map[uuid.UUID]map[*Client]bool` is modelled as
an association list from user id to the list of that user's sessions.
A session's `Send` channel of capacity `cap` is modelled by its list of
buffered pending messages: the non-blocking `select { case ch <- m;
default }` succeeds exactly when the buffer is below capacity. -/

/-- One registered session: its identity and the state of its `Send`
channel (buffered pending messages, channel capacity). -/
structure Session where
  sid : Nat
  pending : List String
  cap : Nat
  deriving DecidableEq, Repr

/-- The Hub registry: user id to sessions resident in this process. -/
abbrev Registry := List (Nat × List Session)

/-- Events observable from one `broadcastToLocal` call. -/
inductive HubEv where
  | enqueued (sid : Nat)
  | closedRemoved (sid : Nat)
  deriving DecidableEq, Repr

/-- The session an event concerns. -/
def evSid : HubEv → Nat
  | HubEv.enqueued s => s
  | HubEv.closedRemoved s => s

/-- The per-session body of the `for client := range clients` loop:
non-blocking send, on a full channel `close(client.Send)` and
`delete(clients, client)`. Returns the surviving sessions with their
new buffers, and the events in iteration order. -/
def broadcastSessions (msg : String) :
    List Session → List Session × List HubEv
  | [] => ([], [])
  | s :: rest =>
    let r := broadcastSessions msg rest
    if s.pending.length < s.cap then
      ({ s with pending := s.pending ++ [msg] } :: r.1,
       HubEv.enqueued s.sid :: r.2)
    else
      (r.1, HubEv.closedRemoved s.sid :: r.2)

/-- `broadcastToLocal(userID, message)`: look the user up in the
registry; if present, attempt the non-blocking enqueue on each of its
sessions. Other users' entries are untouched. -/
def broadcastToLocal (reg : Registry) (userID : Nat) (msg : String) :
    Registry × List HubEv :=
  match reg with
  | [] => ([], [])
  | (u, ss) :: rest =>
    if u = userID then
      let r := broadcastSessions msg ss
      ((u, r.1) :: rest, r.2)
    else
      let r := broadcastToLocal rest userID msg
      ((u, ss) :: r.1, r.2)

/-- The sessions a registry holds for a user (`h.clients[userID]`). -/
def sessionsOf (reg : Registry) (userID : Nat) : List Session :=
  match reg with
  | [] => []
  | (u, ss) :: rest => if u = userID then ss else sessionsOf rest userID

/-- Registry well-formedness: user keys are distinct and each user's
session identities are distinct (each Go map key appears once). -/
def regWF (reg : Registry) : Prop :=
  (reg.map Prod.fst).Nodup ∧
    ∀ p ∈ reg, ((p.2.map Session.sid).Nodup)

/-! ### Unregister (the `case client := <-h.Unregister` branch)

`hubUnregister` acts on the registry keyed by bare session ids (the
channel-buffer state plays no role in unregistration): if the user has
a session set containing the client, the client is deleted from the
set, its `Send` channel is closed, and an emptied set removes the
user's key. The returned flag reports whether `close(client.Send)`
was executed. -/

/-- Sets-as-lists registry for the register/unregister life cycle. -/
abbrev IdRegistry := List (Nat × List Nat)

/-- The unregister branch of `Hub.Run`. -/
def hubUnregister (reg : IdRegistry) (userID cid : Nat) :
    IdRegistry × Bool :=
  match reg with
  | [] => ([], false)
  | (u, cs) :: rest =>
    if u = userID then
      if cid ∈ cs then
        let cs := cs.erase cid
        (if cs.isEmpty then rest else (u, cs) :: rest, true)
      else ((u, cs) :: rest, false)
    else
      let r := hubUnregister rest userID cid
      ((u, cs) :: r.1, r.2)

/-- The client ids an id-registry holds for a user. -/
def idSessionsOf (reg : IdRegistry) (userID : Nat) : List Nat :=
  match reg with
  | [] => []
  | (u, cs) :: rest => if u = userID then cs else idSessionsOf rest userID

/-- Whether a user key is present (`_, ok := h.clients[userID]`). -/
def hasUserKey (reg : IdRegistry) (userID : Nat) : Bool :=
  match reg with
  | [] => false
  | (u, _) :: rest => if u = userID then true else hasUserKey rest userID

/-! ### WritePump (client.go)

The outbound loop: a message from `Send` is written as a text frame; a
closed channel (`ok = false`) writes a close frame and returns; a
ticker tick writes a ping frame. The exit on channel close is modelled
by the run function discarding everything after a `chanClosed` event. -/

/-- Events the outbound loop selects on. -/
inductive WEvent where
  | msg (payload : String)
  | chanClosed
  | tick
  deriving DecidableEq, Repr

/-- Frames written to the wire by the outbound loop. -/
inductive Wire where
  | text (payload : String)
  | ping
  | closeFrame
  deriving DecidableEq, Repr

/-- `WritePump`'s wire output on a sequence of selected events. -/
def writePumpRun : List WEvent → List Wire
  | [] => []
  | WEvent.msg p :: rest => Wire.text p :: writePumpRun rest
  | WEvent.chanClosed :: _ => [Wire.closeFrame]
  | WEvent.tick :: rest => Wire.ping :: writePumpRun rest

/-! ## Cross-process Router: the shared stream and the tailing loop

The redis stream `locolive:stream:routing` is a list of entries with
monotonically increasing ids. `XRead(Streams: [key, lastID])` returns
entries with id strictly greater than the cursor (at most `Count`);
the initial cursor `"$"` stands for the maximum id present at process
start, so only entries appended afterwards are ever returned. -/

/-- The single shared stream name. -/
def streamKey : String := "locolive:stream:routing"

/-- One stream entry: its id and the two fields the Router writes; a
`none` field models a missing field or a failed `.(string)` type
assertion in the tailing loop. -/
structure Entry where
  eid : Nat
  target : Option String
  payload : Option String
  deriving DecidableEq, Repr

/-- `uuid.Parse` on the model's stringified user ids: parses back the
decimal rendering of a model user id, rejecting anything else. -/
def uuidParse (s : String) : Option Nat :=
  let cs := s.toList
  if cs.isEmpty then none
  else if cs.all Char.isDigit then
    some (cs.foldl (fun n ch => n * 10 + (ch.toNat - 48)) 0)
  else none

/-- The tailing loop's in-memory state: the local registry, the cursor
(`lastID`), and the entries iterated so far in this process run. -/
structure LoopState where
  reg : Registry
  cursor : Nat
  processed : List Entry
  deriving Repr

/-- The body of the message loop in `listenRedisStream` for one entry:
advance `lastID` to the entry's id, then extract `target_user_id` and
`payload`; malformed entries are skipped; well-formed ones are handed
to `broadcastToLocal`. -/
def stepMsg (st : LoopState) (e : Entry) : LoopState :=
  let st := { st with cursor := e.eid, processed := st.processed ++ [e] }
  match e.target, e.payload with
  | some ts, some p =>
    match uuidParse ts with
    | some u => { st with reg := (broadcastToLocal st.reg u p).1 }
    | none => st
  | _, _ => st

/-- `XRead` with `Count: 10`: the at most 10 oldest entries of the log
strictly beyond the cursor. -/
def xread (log : List Entry) (cursor : Nat) : List Entry :=
  (log.filter (fun e => cursor < e.eid)).take 10

/-- The maximum id present in a log (0 when empty); the resolution of
the `"$"` start cursor. -/
def maxId (log : List Entry) : Nat :=
  log.foldr (fun e a => max e.eid a) 0

/-- The tailing loop over a schedule of append batches: before each
`XRead` wake-up the external world appends `batch` to the log (an
empty batch models a wake-up with no new appends). -/
def listenLoop : LoopState → List Entry → List (List Entry) → LoopState
  | st, _, [] => st
  | st, log, batch :: batches =>
    let log := log ++ batch
    let read := xread log st.cursor
    listenLoop (read.foldl stepMsg st) log batches

/-- A whole process run of `listenRedisStream`: `preLog` is the log
content at process start; the cursor starts at `"$"` (its maximum id)
and the loop then consumes the appended batches. -/
def listenRun (reg : Registry) (preLog : List Entry)
    (batches : List (List Entry)) : LoopState :=
  listenLoop ⟨reg, maxId preLog, []⟩ preLog batches

/-! ## Router publish: `SendToUser` -/

/-- The `XAdd` command `SendToUser(userID, message)` issues: the single
shared stream, the two fields, the approximate cap. -/
structure XAddCmd where
  stream : String
  values : List (String × String)
  maxLen : Nat
  approx : Bool
  deriving DecidableEq, Repr

/-- The command built by `SendToUser`. -/
def sendToUserCmd (userID : Nat) (message : String) : XAddCmd :=
  { stream := streamKey
    values := [("target_user_id", toString userID), ("payload", message)]
    maxLen := 100000
    approx := true }

/-- The shared stream's server-side state: entries and the next id. -/
structure StreamSt where
  entries : List Entry
  nextId : Nat
  deriving Repr

/-- Apply an `XAdd` on the server: append the entry and trim the
oldest entries down to the cap (the `Approx: true` trim may retain
more; the model trims exactly, an upper bound the claim quantifies
approximately). -/
def xadd (st : StreamSt) (cmd : XAddCmd) : StreamSt :=
  let es := st.entries ++
    [{ eid := st.nextId
       target := (cmd.values.find? (fun kv => kv.1 = "target_user_id")).map (fun kv => kv.2)
       payload := (cmd.values.find? (fun kv => kv.1 = "payload")).map (fun kv => kv.2) }]
  { entries := es.drop (es.length - cmd.maxLen), nextId := st.nextId + 1 }

/-- `SendToUser`: issue the `XAdd`; when the append fails the error is
only logged, so the caller observes the same (error-free) `Unit`
result either way. -/
def sendToUser (st : StreamSt) (appendFails : Bool) (userID : Nat)
    (message : String) : StreamSt × Unit :=
  if appendFails then (st, ())
  else (xadd st (sendToUserCmd userID message), ())

/-! ## ReadPump inbound handling and the read deadline (client.go) -/

/-- The identity a session attaches to inbound control traffic. -/
structure ClientInfo where
  userID : Nat
  username : String
  deriving DecidableEq, Repr

/-- The `WSMessage` the typing branch republishes: type `"typing"`,
payload `{user_id, username}` of the sender. -/
structure TypingMsg where
  type : String
  payloadUserId : Nat
  payloadUsername : String
  deriving DecidableEq, Repr

/-- Observable effects of the inbound loop. -/
inductive RPAction where
  | publish (target : Nat) (msg : TypingMsg)
  | storeWrite
  deriving DecidableEq, Repr

/-- One wire event seen by `ReadPump`: a read error (loop breaks) or a
frame, carried as the result of `json.Unmarshal` into
`{type, receiver_id}` (`none` = invalid JSON). -/
inductive FrameEv where
  | readErr
  | frame (parse : Option (String × Nat))
  deriving DecidableEq, Repr

/-- The per-frame body of `ReadPump`: only a JSON frame whose type is
`"typing"` produces an effect — a single `SendToUser` to the parsed
`receiver_id` carrying the sender's identity. Nothing is persisted. -/
def handleFrame (c : ClientInfo) (parse : Option (String × Nat)) :
    List RPAction :=
  match parse with
  | none => []
  | some (ty, rid) =>
    if ty = "typing" then
      [RPAction.publish rid ⟨"typing", c.userID, c.username⟩]
    else []

/-- The inbound loop over a sequence of wire events: processing stops
at the first read error, every other frame is handled in place and the
loop continues. -/
def readPumpRun (c : ClientInfo) : List FrameEv → List RPAction
  | [] => []
  | FrameEv.readErr :: _ => []
  | FrameEv.frame p :: rest => handleFrame c p ++ readPumpRun c rest

/-- Connection read-state set up by `ReadPump`: the read limit and the
absolute read deadline. -/
structure ConnState where
  readLimit : Nat
  deadline : Int
  deriving DecidableEq, Repr

/-- `pongWait`: 60 seconds. -/
def pongWait : Int := 60

/-- The `ReadPump` prologue at time `now`: `SetReadLimit(4096)` and
`SetReadDeadline(now + 60s)`. -/
def readPumpInit (now : Int) : ConnState :=
  { readLimit := 4096, deadline := now + pongWait }

/-- The pong handler at time `now`: `SetReadDeadline(now + 60s)`. -/
def pongHandle (st : ConnState) (now : Int) : ConnState :=
  { st with deadline := now + pongWait }

/-- Receipt of an ordinary data frame at time `now`: the loop body
issues no `SetReadDeadline`, so the connection state is unchanged. -/
def dataFrameHandle (st : ConnState) (_now : Int) : ConnState := st

/-! ## Theorems -/

theorem redisGet_redisDel (cache : List (String × String)) (k : String) :
    redisGet (redisDel cache k) k = none := by
  induction cache with
  | nil => rfl
  | cons kv rest ih =>
    by_cases h : kv.1 = k
    · simp only [redisDel, redisGet, List.filter_cons, h] at ih ⊢
      simp [ih]
    · simp only [redisDel, redisGet, List.filter_cons, h] at ih ⊢
      simp [h, ih]

/-- A frame handler effect is never a store write. -/
theorem handleFrame_no_store (c : ClientInfo) (p : Option (String × Nat)) :
    RPAction.storeWrite ∉ handleFrame c p := by
  rcases p with _ | ⟨ty, rid⟩
  · simp [handleFrame]
  · by_cases h : ty = "typing" <;> simp [handleFrame, h]

/-- The inbound loop never writes to the durable store. -/
theorem readPumpRun_no_store (c : ClientInfo) (evs : List FrameEv) :
    RPAction.storeWrite ∉ readPumpRun c evs := by
  induction evs with
  | nil => simp [readPumpRun]
  | cons e rest ih =>
    cases e with
    | readErr => simp [readPumpRun]
    | frame p =>
      simp only [readPumpRun, List.mem_append, not_or]
      exact ⟨handleFrame_no_store c p, ih⟩

/-- Claim C6: an inbound JSON frame of type `"typing"` with a
`receiver_id` is republished via the Router to that receiver, as a
single `"typing"` message carrying the sender's user id and username;
nothing is persisted; frames that are not valid JSON or carry any
other type are dropped and the loop continues. -/
theorem claim_C6 (c : ClientInfo) (r : Nat) (rest : List FrameEv)
    (ty : String) (hty : ty ≠ "typing") :
    readPumpRun c (FrameEv.frame (some ("typing", r)) :: rest) =
      RPAction.publish r ⟨"typing", c.userID, c.username⟩ ::
        readPumpRun c rest ∧
      (∀ evs, RPAction.storeWrite ∉ readPumpRun c evs) ∧
      readPumpRun c (FrameEv.frame none :: rest) = readPumpRun c rest ∧
      readPumpRun c (FrameEv.frame (some (ty, r)) :: rest) =
        readPumpRun c rest := by
  refine ⟨?_, readPumpRun_no_store c, ?_, ?_⟩
  · simp [readPumpRun, handleFrame]
  · simp [readPumpRun, handleFrame]
  · simp [readPumpRun, handleFrame, hty]

/-- A concrete instance of `claim_C6`: a `"typing"` frame for receiver
3 from session of user 5, and a dropped `"chat"` frame. -/
theorem claim_C6_witness :
    readPumpRun ⟨5, "alice"⟩ (FrameEv.frame (some ("typing", 3)) :: []) =
      RPAction.publish 3 ⟨"typing", 5, "alice"⟩ :: readPumpRun ⟨5, "alice"⟩ [] ∧
      (∀ evs, RPAction.storeWrite ∉ readPumpRun ⟨5, "alice"⟩ evs) ∧
      readPumpRun ⟨5, "alice"⟩ (FrameEv.frame none :: []) =
        readPumpRun ⟨5, "alice"⟩ [] ∧
      readPumpRun ⟨5, "alice"⟩ (FrameEv.frame (some ("chat", 3)) :: []) =
        readPumpRun ⟨5, "alice"⟩ [] :=
  claim_C6 ⟨5, "alice"⟩ 3 [] "chat" (by decide)

/-- The events of one local broadcast name the user's sessions, in
registry order, one event per session. -/
theorem broadcastSessions_evSid (msg : String) (ss : List Session) :
    (broadcastSessions msg ss).2.map evSid = ss.map Session.sid := by
  induction ss with
  | nil => rfl
  | cons s rest ih =>
    by_cases h : s.pending.length < s.cap <;>
      simp [broadcastSessions, h, evSid, ih]

/-- Surviving sessions come from the original list (same ids). -/
theorem broadcastSessions_sid_sub (msg : String) (ss : List Session) :
    ∀ x ∈ (broadcastSessions msg ss).1, x.sid ∈ ss.map Session.sid := by
  induction ss with
  | nil => intro x hx; simp [broadcastSessions] at hx
  | cons s rest ih =>
    intro x hx
    by_cases h : s.pending.length < s.cap
    · simp only [broadcastSessions, if_pos h, List.mem_cons] at hx
      rcases hx with hx | hx
      · simp [hx]
      · simp [ih x hx]
    · simp only [broadcastSessions, if_neg h] at hx
      simp [ih x hx]

/-- A full session's close-and-remove event is emitted. -/
theorem broadcastSessions_closed (msg : String) (ss : List Session)
    (s : Session) (hs : s ∈ ss) (hfull : ¬ s.pending.length < s.cap) :
    HubEv.closedRemoved s.sid ∈ (broadcastSessions msg ss).2 := by
  induction ss with
  | nil => simp at hs
  | cons t rest ih =>
    rcases List.mem_cons.mp hs with rfl | hs
    · simp [broadcastSessions, if_neg hfull]
    · by_cases h : t.pending.length < t.cap <;>
        simp [broadcastSessions, h, ih hs]

/-- A full session does not survive a broadcast (ids distinct). -/
theorem broadcastSessions_removed (msg : String) (ss : List Session)
    (s : Session) (hs : s ∈ ss) (hfull : ¬ s.pending.length < s.cap)
    (hnd : (ss.map Session.sid).Nodup) :
    s.sid ∉ ((broadcastSessions msg ss).1).map Session.sid := by
  induction ss with
  | nil => simp at hs
  | cons t rest ih =>
    have hnd' : (rest.map Session.sid).Nodup := (List.nodup_cons.mp hnd).2
    have hhead : t.sid ∉ rest.map Session.sid := (List.nodup_cons.mp hnd).1
    rcases List.mem_cons.mp hs with rfl | hs
    · simp only [broadcastSessions, if_neg hfull]
      intro hmem
      rcases List.mem_map.mp hmem with ⟨x, hx, hxs⟩
      exact hhead (hxs ▸ broadcastSessions_sid_sub msg rest x hx)
    · have hne : t.sid ≠ s.sid := by
        intro he
        exact hhead (he ▸ List.mem_map_of_mem Session.sid hs)
      by_cases h : t.pending.length < t.cap
      · simp only [broadcastSessions, if_pos h, List.map_cons, List.mem_cons]
        intro hmem
        rcases hmem with hmem | hmem
        · exact hne hmem.symm
        · exact ih hs hnd' hmem
      · simp only [broadcastSessions, if_neg h]
        exact ih hs hnd'

/-- A non-full session's enqueue event is emitted. -/
theorem broadcastSessions_enqueued (msg : String) (ss : List Session)
    (t : Session) (ht : t ∈ ss) (hroom : t.pending.length < t.cap) :
    HubEv.enqueued t.sid ∈ (broadcastSessions msg ss).2 := by
  induction ss with
  | nil => simp at ht
  | cons x rest ih =>
    rcases List.mem_cons.mp ht with rfl | ht
    · simp [broadcastSessions, if_pos hroom]
    · by_cases h : x.pending.length < x.cap <;>
        simp [broadcastSessions, h, ih ht]

/-- Every session of the user receives its enqueue attempt: one event,
an enqueue or a close, is emitted for it. -/
theorem broadcastSessions_attempt (msg : String) (ss : List Session)
    (t : Session) (ht : t ∈ ss) :
    HubEv.enqueued t.sid ∈ (broadcastSessions msg ss).2 ∨
      HubEv.closedRemoved t.sid ∈ (broadcastSessions msg ss).2 := by
  have hsid : t.sid ∈ (broadcastSessions msg ss).2.map evSid := by
    rw [broadcastSessions_evSid]
    exact List.mem_map_of_mem Session.sid ht
  rcases List.mem_map.mp hsid with ⟨ev, hev, hevs⟩
  cases ev with
  | enqueued s => exact Or.inl (by simpa [evSid] using hevs ▸ hev)
  | closedRemoved s => exact Or.inr (by simpa [evSid] using hevs ▸ hev)

/-- The events of `broadcastToLocal` are those of the per-user loop on
the user's sessions. -/
theorem broadcastToLocal_ev (reg : Registry) (u : Nat) (msg : String) :
    (broadcastToLocal reg u msg).2 =
      (broadcastSessions msg (sessionsOf reg u)).2 := by
  induction reg with
  | nil => rfl
  | cons p rest ih =>
    rcases p with ⟨v, ss⟩
    by_cases h : v = u <;> simp [broadcastToLocal, sessionsOf, h, ih]

/-- The user's sessions after `broadcastToLocal` are the survivors of
the per-user loop. -/
theorem broadcastToLocal_self (reg : Registry) (u : Nat) (msg : String) :
    sessionsOf (broadcastToLocal reg u msg).1 u =
      (broadcastSessions msg (sessionsOf reg u)).1 := by
  induction reg with
  | nil => rfl
  | cons p rest ih =>
    rcases p with ⟨v, ss⟩
    by_cases h : v = u <;> simp [broadcastToLocal, sessionsOf, h, ih]

/-- `broadcastToLocal` leaves every other user's sessions untouched. -/
theorem broadcastToLocal_other (reg : Registry) (u v : Nat) (msg : String)
    (hne : v ≠ u) :
    sessionsOf (broadcastToLocal reg u msg).1 v = sessionsOf reg v := by
  induction reg with
  | nil => rfl
  | cons p rest ih =>
    rcases p with ⟨w, ss⟩
    by_cases hw : w = u
    · subst hw
      simp [broadcastToLocal, sessionsOf, Ne.symm hne]
    · by_cases hv : w = v <;>
        simp [broadcastToLocal, sessionsOf, hw, hv, hne, ih]

/-- Claim C3: when a session's outbound channel is full, the
non-blocking enqueue closes that session's channel and removes it from
the user's registry set; delivery still proceeds to the user's other
sessions (each receives its own enqueue attempt, successful whenever
it has room), and the publisher sees no error — `broadcastToLocal`
returns nothing to propagate. -/
theorem claim_C3 (reg : Registry) (u : Nat) (msg : String) (s : Session)
    (hs : s ∈ sessionsOf reg u)
    (hnd : ((sessionsOf reg u).map Session.sid).Nodup)
    (hfull : ¬ s.pending.length < s.cap) :
    HubEv.closedRemoved s.sid ∈ (broadcastToLocal reg u msg).2 ∧
      s.sid ∉ (sessionsOf (broadcastToLocal reg u msg).1 u).map Session.sid ∧
      (∀ t ∈ sessionsOf reg u, t.pending.length < t.cap →
        HubEv.enqueued t.sid ∈ (broadcastToLocal reg u msg).2) ∧
      (∀ t ∈ sessionsOf reg u,
        HubEv.enqueued t.sid ∈ (broadcastToLocal reg u msg).2 ∨
          HubEv.closedRemoved t.sid ∈ (broadcastToLocal reg u msg).2) := by
  rw [broadcastToLocal_ev, broadcastToLocal_self]
  exact ⟨broadcastSessions_closed msg _ s hs hfull,
    broadcastSessions_removed msg _ s hs hfull hnd,
    fun t ht hroom => broadcastSessions_enqueued msg _ t ht hroom,
    fun t ht => broadcastSessions_attempt msg _ t ht⟩

/-- A concrete instance of `claim_C3`: user 7 has sessions 1 (full,
capacity 0) and 2 (room); broadcasting closes 1 and enqueues on 2. -/
theorem claim_C3_witness :
    HubEv.closedRemoved 1 ∈
      (broadcastToLocal [(7, [⟨1, [], 0⟩, ⟨2, [], 4⟩])] 7 "m").2 ∧
      1 ∉ (sessionsOf
        (broadcastToLocal [(7, [⟨1, [], 0⟩, ⟨2, [], 4⟩])] 7 "m").1 7).map
          Session.sid ∧
      (∀ t ∈ sessionsOf ([(7, [⟨1, [], 0⟩, ⟨2, [], 4⟩])] : Registry) 7,
        t.pending.length < t.cap →
        HubEv.enqueued t.sid ∈
          (broadcastToLocal [(7, [⟨1, [], 0⟩, ⟨2, [], 4⟩])] 7 "m").2) ∧
      (∀ t ∈ sessionsOf ([(7, [⟨1, [], 0⟩, ⟨2, [], 4⟩])] : Registry) 7,
        HubEv.enqueued t.sid ∈
          (broadcastToLocal [(7, [⟨1, [], 0⟩, ⟨2, [], 4⟩])] 7 "m").2 ∨
          HubEv.closedRemoved t.sid ∈
            (broadcastToLocal [(7, [⟨1, [], 0⟩, ⟨2, [], 4⟩])] 7 "m").2) :=
  claim_C3 [(7, [⟨1, [], 0⟩, ⟨2, [], 4⟩])] 7 "m" ⟨1, [], 0⟩
    (by decide) (by decide) (by decide)

/-- Claim C4: a log entry with a well-formed target `u` and payload
`p` makes `stepMsg` invoke exactly one local broadcast; that broadcast
attempts one enqueue per session registered for `u` (their ids in
registry order, without duplicates when the registry is well-formed)
and touches no session of any other user. -/
theorem claim_C4 (st : LoopState) (e : Entry) (ts p : String) (u : Nat)
    (ht : e.target = some ts) (hp : e.payload = some p)
    (hu : uuidParse ts = some u)
    (hnd : ((sessionsOf st.reg u).map Session.sid).Nodup) :
    (stepMsg st e).reg = (broadcastToLocal st.reg u p).1 ∧
      (broadcastToLocal st.reg u p).2.map evSid =
        (sessionsOf st.reg u).map Session.sid ∧
      ((broadcastToLocal st.reg u p).2.map evSid).Nodup ∧
      (∀ v, v ≠ u →
        sessionsOf (broadcastToLocal st.reg u p).1 v =
          sessionsOf st.reg v) := by
  refine ⟨?_, ?_, ?_, ?_⟩
  · simp [stepMsg, ht, hp, hu]
  · rw [broadcastToLocal_ev]
    exact broadcastSessions_evSid p _
  · rw [broadcastToLocal_ev, broadcastSessions_evSid]
    exact hnd
  · intro v hv
    exact broadcastToLocal_other st.reg u v p hv

/-- A concrete instance of `claim_C4`: an entry for user 7 delivered
to the registry holding sessions 1 and 2 for user 7 and session 9 for
user 8. -/
theorem claim_C4_witness :
    (stepMsg ⟨[(7, [⟨1, [], 4⟩, ⟨2, [], 4⟩]), (8, [⟨9, [], 4⟩])], 0, []⟩
      ⟨1, some "7", some "hi"⟩).reg =
      (broadcastToLocal [(7, [⟨1, [], 4⟩, ⟨2, [], 4⟩]), (8, [⟨9, [], 4⟩])]
        7 "hi").1 ∧
      (broadcastToLocal [(7, [⟨1, [], 4⟩, ⟨2, [], 4⟩]), (8, [⟨9, [], 4⟩])]
        7 "hi").2.map evSid =
        (sessionsOf ([(7, [⟨1, [], 4⟩, ⟨2, [], 4⟩]), (8, [⟨9, [], 4⟩])] :
          Registry) 7).map Session.sid ∧
      ((broadcastToLocal [(7, [⟨1, [], 4⟩, ⟨2, [], 4⟩]), (8, [⟨9, [], 4⟩])]
        7 "hi").2.map evSid).Nodup ∧
      (∀ v, v ≠ 7 →
        sessionsOf (broadcastToLocal
          [(7, [⟨1, [], 4⟩, ⟨2, [], 4⟩]), (8, [⟨9, [], 4⟩])] 7 "hi").1 v =
          sessionsOf ([(7, [⟨1, [], 4⟩, ⟨2, [], 4⟩]), (8, [⟨9, [], 4⟩])] :
            Registry) v) :=
  claim_C4 ⟨[(7, [⟨1, [], 4⟩, ⟨2, [], 4⟩]), (8, [⟨9, [], 4⟩])], 0, []⟩
    ⟨1, some "7", some "hi"⟩ "7" "hi" 7 rfl rfl (by decide) (by decide)

/-- An absent member is never "closed": the unregister branch reports
no `close(client.Send)` when the client is not in the user's set. -/
theorem hubUnregister_absent (reg : IdRegistry) (u c : Nat)
    (hc : c ∉ idSessionsOf reg u) :
    (hubUnregister reg u c).2 = false := by
  induction reg with
  | nil => rfl
  | cons p rest ih =>
    rcases p with ⟨v, cs⟩
    by_cases hv : v = u
    · subst hv
      have hsess : idSessionsOf ((v, cs) :: rest) v = cs := by
        simp [idSessionsOf]
      rw [hsess] at hc
      simp [hubUnregister, hc]
    · have hsess : idSessionsOf ((v, cs) :: rest) u = idSessionsOf rest u := by
        simp [idSessionsOf, hv]
      rw [hsess] at hc
      simp [hubUnregister, hv, ih hc]

/-- A user id that is no key of the registry has no sessions and no
key. -/
theorem noKey_empty (reg : IdRegistry) (u : Nat)
    (h : u ∉ reg.map Prod.fst) :
    idSessionsOf reg u = [] ∧ hasUserKey reg u = false := by
  induction reg with
  | nil => exact ⟨rfl, rfl⟩
  | cons p rest ih =>
    rcases p with ⟨v, cs⟩
    simp only [List.map_cons, List.mem_cons, not_or] at h
    have hv : v ≠ u := fun he => h.1 he.symm
    have := ih h.2
    simp [idSessionsOf, hasUserKey, hv, this.1, this.2]

/-- Claim C5: after the Hub processes an unregister for a registered
session, the registry no longer contains it; `close(client.Send)` runs
on that unregister and cannot run again on a repeat unregister; if it
was the user's last session the user's key is gone; and the closed
channel makes the outbound write loop emit its close frame and exit. -/
theorem claim_C5 (reg : IdRegistry) (u c : Nat)
    (hkeys : (reg.map Prod.fst).Nodup)
    (hnd : (idSessionsOf reg u).Nodup)
    (hc : c ∈ idSessionsOf reg u) :
    c ∉ idSessionsOf (hubUnregister reg u c).1 u ∧
      (hubUnregister reg u c).2 = true ∧
      (idSessionsOf reg u = [c] →
        hasUserKey (hubUnregister reg u c).1 u = false) ∧
      (hubUnregister (hubUnregister reg u c).1 u c).2 = false ∧
      (∀ evs, writePumpRun (WEvent.chanClosed :: evs) = [Wire.closeFrame]) := by
  have hmain : c ∉ idSessionsOf (hubUnregister reg u c).1 u ∧
      (hubUnregister reg u c).2 = true ∧
      (idSessionsOf reg u = [c] →
        hasUserKey (hubUnregister reg u c).1 u = false) := by
    induction reg with
    | nil => simp [idSessionsOf] at hc
    | cons p rest ih =>
      rcases p with ⟨v, cs⟩
      rcases List.nodup_cons.mp hkeys with ⟨hvkey, hkeys'⟩
      by_cases hv : v = u
      · subst hv
        have hsess : idSessionsOf ((v, cs) :: rest) v = cs := by
          simp [idSessionsOf]
        rw [hsess] at hc hnd
        rw [hsess]
        have hempty := noKey_empty rest v hvkey
        have hunreg : hubUnregister ((v, cs) :: rest) v c =
            (if (cs.erase c).isEmpty then rest
              else (v, cs.erase c) :: rest, true) := by
          simp [hubUnregister, hc]
        rw [hunreg]
        by_cases he : (cs.erase c).isEmpty = true
        · rw [if_pos he]
          exact ⟨by simp [hempty.1], rfl, fun _ => hempty.2⟩
        · rw [if_neg he]
          refine ⟨?_, rfl, ?_⟩
          · have heq : idSessionsOf ((v, cs.erase c) :: rest) v =
                cs.erase c := by
              simp [idSessionsOf]
            show c ∉ idSessionsOf ((v, cs.erase c) :: rest) v
            rw [heq]
            exact hnd.not_mem_erase
          · intro hcs
            subst hcs
            simp at he
      · have hsess : idSessionsOf ((v, cs) :: rest) u =
            idSessionsOf rest u := by
          simp [idSessionsOf, hv]
        rw [hsess] at hc hnd
        rw [hsess]
        have h := ih hkeys' hnd hc
        have hunreg : hubUnregister ((v, cs) :: rest) u c =
            ((v, cs) :: (hubUnregister rest u c).1,
              (hubUnregister rest u c).2) := by
          simp [hubUnregister, hv]
        rw [hunreg]
        refine ⟨?_, h.2.1, ?_⟩
        · show c ∉ idSessionsOf ((v, cs) :: (hubUnregister rest u c).1) u
          have heq : idSessionsOf ((v, cs) :: (hubUnregister rest u c).1) u =
              idSessionsOf (hubUnregister rest u c).1 u := by
            simp [idSessionsOf, hv]
          rw [heq]
          exact h.1
        · intro hcs
          show hasUserKey ((v, cs) :: (hubUnregister rest u c).1) u = false
          have heq : hasUserKey ((v, cs) :: (hubUnregister rest u c).1) u =
              hasUserKey (hubUnregister rest u c).1 u := by
            simp [hasUserKey, hv]
          rw [heq]
          exact h.2.2 hcs
  refine ⟨hmain.1, hmain.2.1, hmain.2.2, ?_, fun evs => rfl⟩
  exact hubUnregister_absent _ u c hmain.1

/-- A concrete instance of `claim_C5`: user 7 with sessions 1 and 2;
unregistering session 1 removes it, closes it once, and a repeated
unregister closes nothing. -/
theorem claim_C5_witness :
    1 ∉ idSessionsOf (hubUnregister [(7, [1, 2])] 7 1).1 7 ∧
      (hubUnregister [(7, [1, 2])] 7 1).2 = true ∧
      (idSessionsOf [(7, [1, 2])] 7 = [1] →
        hasUserKey (hubUnregister [(7, [1, 2])] 7 1).1 7 = false) ∧
      (hubUnregister (hubUnregister [(7, [1, 2])] 7 1).1 7 1).2 = false ∧
      (∀ evs, writePumpRun (WEvent.chanClosed :: evs) = [Wire.closeFrame]) :=
  claim_C5 [(7, [1, 2])] 7 1 (by decide) (by decide) (by decide)

/-- `stepMsg` always advances the cursor to the entry's id and records
the entry as processed, whether or not the entry is well-formed. -/
theorem stepMsg_fields (st : LoopState) (e : Entry) :
    (stepMsg st e).cursor = e.eid ∧
      (stepMsg st e).processed = st.processed ++ [e] := by
  rcases ht : e.target with _ | ts <;> rcases hp : e.payload with _ | p <;>
    simp [stepMsg, ht, hp]
  rcases hu : uuidParse ts with _ | u <;> simp [hu]

/-- Folding the message loop over a batch of entries that all lie
beyond the cursor: every entry is appended to `processed`, the cursor
never moves back, and it ends at or beyond every batch entry's id. -/
theorem foldl_stepMsg (es : List Entry) :
    ∀ st : LoopState, (∀ e ∈ es, st.cursor < e.eid) →
      ((es.map Entry.eid).Pairwise (· < ·)) →
      (es.foldl stepMsg st).processed = st.processed ++ es ∧
        st.cursor ≤ (es.foldl stepMsg st).cursor ∧
        (∀ e ∈ es, e.eid ≤ (es.foldl stepMsg st).cursor) := by
  induction es with
  | nil =>
    intro st h hp
    exact ⟨by simp, le_refl _, by simp⟩
  | cons e rest ih =>
    intro st h hp
    have hfields := stepMsg_fields st e
    have hpc : (∀ a ∈ rest, e.eid < a.eid) ∧
        ((rest.map Entry.eid).Pairwise (· < ·)) := by
      simpa using hp
    have hrest : ∀ x ∈ rest, (stepMsg st e).cursor < x.eid := by
      intro x hx
      rw [hfields.1]
      exact hpc.1 x hx
    obtain ⟨hproc, hmono, hbound⟩ := ih (stepMsg st e) hrest hpc.2
    have hecur : st.cursor < e.eid := h e (List.mem_cons_self e rest)
    refine ⟨?_, ?_, ?_⟩
    · show (rest.foldl stepMsg (stepMsg st e)).processed = _
      rw [hproc, hfields.2]
      simp
    · show st.cursor ≤ (rest.foldl stepMsg (stepMsg st e)).cursor
      exact le_trans (le_of_lt (hfields.1 ▸ hecur)) hmono
    · intro x hx
      rcases List.mem_cons.mp hx with rfl | hx
      · exact le_trans (le_of_eq (hfields.1).symm) hmono
      · exact hbound x hx

/-- Entries returned by a read lie strictly beyond the cursor and come
from the log. -/
theorem xread_mem (log : List Entry) (c : Nat) :
    ∀ e ∈ xread log c, c < e.eid ∧ e ∈ log := by
  intro e he
  unfold xread at he
  have h1 := List.mem_of_mem_take he
  have h2 := List.mem_filter.mp h1
  exact ⟨by simpa using h2.2, h2.1⟩

/-- A read is a sublist of the log. -/
theorem xread_sublist (log : List Entry) (c : Nat) :
    List.Sublist (xread log c) log :=
  List.Sublist.trans (List.take_sublist _ _) (List.filter_sublist _)

/-- Strictly increasing ids survive into every read. -/
theorem xread_pairwise (log : List Entry) (c : Nat)
    (h : (log.map Entry.eid).Pairwise (· < ·)) :
    ((xread log c).map Entry.eid).Pairwise (· < ·) :=
  List.Pairwise.sublist (List.Sublist.map Entry.eid (xread_sublist log c)) h

/-- An entry's id is bounded by the log's maximum id. -/
theorem eid_le_maxId (l : List Entry) (e : Entry) (he : e ∈ l) :
    e.eid ≤ maxId l := by
  induction l with
  | nil => simp at he
  | cons x rest ih =>
    rcases List.mem_cons.mp he with rfl | he
    · show e.eid ≤ max e.eid (maxId rest)
      exact le_max_left _ _
    · show e.eid ≤ max x.eid (maxId rest)
      exact le_trans (ih he) (le_max_right _ _)

/-- The tailing-loop invariant: assuming the shared log's ids are
strictly increasing, the processed list stays duplicate-free, every
newly processed entry lies strictly beyond the starting cursor, all
processed ids are bounded by the final cursor, and the cursor never
moves back. -/
theorem listenLoop_inv (batches : List (List Entry)) :
    ∀ (st : LoopState) (log : List Entry),
      ((log ++ batches.flatten).map Entry.eid).Pairwise (· < ·) →
      (st.processed.map Entry.eid).Nodup →
      (∀ e ∈ st.processed, e.eid ≤ st.cursor) →
      ((listenLoop st log batches).processed.map Entry.eid).Nodup ∧
        (∀ e ∈ (listenLoop st log batches).processed,
          e ∈ st.processed ∨ st.cursor < e.eid) ∧
        (∀ e ∈ (listenLoop st log batches).processed,
          e.eid ≤ (listenLoop st log batches).cursor) ∧
        st.cursor ≤ (listenLoop st log batches).cursor := by
  induction batches with
  | nil =>
    intro st log hp hn hb
    exact ⟨hn, fun e he => Or.inl he, hb, le_refl _⟩
  | cons b bs ih =>
    intro st log hp hn hb
    have hp' : (((log ++ b) ++ bs.flatten).map Entry.eid).Pairwise (· < ·) := by
      rw [List.append_assoc]
      simpa [List.flatten_cons] using hp
    have hlogb : ((log ++ b).map Entry.eid).Pairwise (· < ·) :=
      List.Pairwise.sublist
        (List.Sublist.map Entry.eid (List.sublist_append_left _ _)) hp'
    have hr_mem := xread_mem (log ++ b) st.cursor
    have hr_pw := xread_pairwise (log ++ b) st.cursor hlogb
    obtain ⟨hproc, hmono, hbound⟩ :=
      foldl_stepMsg (xread (log ++ b) st.cursor) st
        (fun e he => (hr_mem e he).1) hr_pw
    have hstep : listenLoop st log (b :: bs) =
        listenLoop ((xread (log ++ b) st.cursor).foldl stepMsg st)
          (log ++ b) bs := rfl
    have hn₁ : (((xread (log ++ b) st.cursor).foldl stepMsg st).processed.map
        Entry.eid).Nodup := by
      rw [hproc, List.map_append]
      rw [List.nodup_append]
      refine ⟨hn, ?_, ?_⟩
      · exact List.Pairwise.imp (fun h => ne_of_lt h) hr_pw
      · intro a ha hb'
        rcases List.mem_map.mp ha with ⟨x, hx, rfl⟩
        rcases List.mem_map.mp hb' with ⟨y, hy, hxy⟩
        have h1 : x.eid ≤ st.cursor := hb x hx
        have h2 : st.cursor < y.eid := (hr_mem y hy).1
        omega
    have hb₁ : ∀ e ∈ ((xread (log ++ b) st.cursor).foldl stepMsg st).processed,
        e.eid ≤ ((xread (log ++ b) st.cursor).foldl stepMsg st).cursor := by
      intro e he
      rw [hproc] at he
      rcases List.mem_append.mp he with he | he
      · exact le_trans (hb e he) hmono
      · exact hbound e he
    obtain ⟨H1, H2, H3, H4⟩ :=
      ih ((xread (log ++ b) st.cursor).foldl stepMsg st) (log ++ b) hp' hn₁ hb₁
    rw [hstep]
    refine ⟨H1, ?_, H3, le_trans hmono H4⟩
    intro e he
    rcases H2 e he with he' | he'
    · rw [hproc] at he'
      rcases List.mem_append.mp he' with he' | he'
      · exact Or.inl he'
      · exact Or.inr (hr_mem e he').1
    · exact Or.inr (lt_of_le_of_lt hmono he')

/-- Claim C2: the tailing loop starts its cursor at the current end of
the shared log (`"$"`), so entries appended before the loop started
are never processed in this run; `stepMsg` advances the in-memory
cursor to each processed entry's id, and — the stream's ids being
strictly increasing — no log entry is processed twice within one
process run. -/
theorem claim_C2 (reg : Registry) (preLog : List Entry)
    (batches : List (List Entry))
    (hp : ((preLog ++ batches.flatten).map Entry.eid).Pairwise (· < ·)) :
    (∀ e ∈ preLog, e ∉ (listenRun reg preLog batches).processed) ∧
      ((listenRun reg preLog batches).processed.map Entry.eid).Nodup ∧
      (∀ st e, (stepMsg st e).cursor = e.eid) := by
  obtain ⟨h1, h2, h3, h4⟩ :=
    listenLoop_inv batches ⟨reg, maxId preLog, []⟩ preLog hp
      (by simp) (by simp)
  refine ⟨?_, h1, fun st e => (stepMsg_fields st e).1⟩
  intro e he hmem
  rcases h2 e hmem with h | h
  · simp at h
  · exact absurd h (not_lt.mpr (eid_le_maxId preLog e he))

/-- A concrete instance of `claim_C2`: one entry in the log before
start, one appended afterwards; only the latter is processed, once. -/
theorem claim_C2_witness :
    (∀ e ∈ [({ eid := 1, target := some "1", payload := some "a" } : Entry)],
      e ∉ (listenRun [] [{ eid := 1, target := some "1", payload := some "a" }]
        [[{ eid := 2, target := some "1", payload := some "b" }]]).processed) ∧
      ((listenRun [] [{ eid := 1, target := some "1", payload := some "a" }]
        [[{ eid := 2, target := some "1", payload := some "b" }]]).processed.map
          Entry.eid).Nodup ∧
      (∀ st e, (stepMsg st e).cursor = e.eid) :=
  claim_C2 [] [{ eid := 1, target := some "1", payload := some "a" }]
    [[{ eid := 2, target := some "1", payload := some "b" }]] (by decide)

/-- On a monitor rejection the handler answers `200 {"status":
"updated"}` whatever the `shouldBan` flag says. -/
theorem updateLocationMain_rejected (req : UpdateLocReq) (env : UpdateLocEnv)
    (pre : List LocAction) (hrej : env.val.allowed = false) :
    (updateLocationMain req env pre).1 = ⟨200, updatedBody⟩ ∧
      (updateLocationMain req env pre).2 =
        (if env.val.shouldBan then
          pre ++ [LocAction.validateMovement, LocAction.banUser]
        else pre ++ [LocAction.validateMovement]) := by
  cases hb : env.val.shouldBan <;> simp [updateLocationMain, hrej, hb]

/-- On a monitor acceptance with a successful `CreateLocation` the
handler persists and answers `200 {"status": "updated"}`. -/
theorem updateLocationMain_accepted (req : UpdateLocReq) (env : UpdateLocEnv)
    (pre : List LocAction) (hacc : env.val.allowed = true)
    (hok : env.createLocErr = false) :
    (updateLocationMain req env pre).1 = ⟨200, updatedBody⟩ ∧
      (updateLocationMain req env pre).2 =
        pre ++ [LocAction.validateMovement,
          LocAction.createLocation
            (truncate7 (geohashEncode req.latitude req.longitude))
            req.latitude req.longitude,
          LocAction.updateUserActivity, LocAction.updateRedisLocation] := by
  simp [updateLocationMain, hacc, hok]

/-- Claim C1: for an authenticated location update with in-range
coordinates and ghost mode inactive, a monitor verdict of
`allowed = false` means `CreateLocation` is never called, and the
response is HTTP 200 with body `{"status":"updated"}` — byte-identical
to the response of an accepted update, so the client cannot
distinguish rejection from acceptance. -/
theorem claim_C1 (req : UpdateLocReq) (env env' : UpdateLocEnv)
    (hrange : inRange req)
    (hghost : ∀ u, env.userLookup = some u → u.isGhostMode = false)
    (hrej : env.val.allowed = false)
    (hghost' : ∀ u, env'.userLookup = some u → u.isGhostMode = false)
    (hacc : env'.val.allowed = true) (hok : env'.createLocErr = false) :
    (∀ g la ln, LocAction.createLocation g la ln ∉ (updateLocation req env).2) ∧
      (updateLocation req env).1 = ⟨200, updatedBody⟩ ∧
      (updateLocation req env').1 = ⟨200, updatedBody⟩ ∧
      (updateLocation req env).1 = (updateLocation req env').1 := by
  have hmain : updateLocation req env = updateLocationMain req env [] := by
    cases hu : env.userLookup with
    | none => simp [updateLocation, hu]
    | some u => simp [updateLocation, hu, hghost u hu]
  have hmain' : updateLocation req env' = updateLocationMain req env' [] := by
    cases hu : env'.userLookup with
    | none => simp [updateLocation, hu]
    | some u => simp [updateLocation, hu, hghost' u hu]
  have hr := updateLocationMain_rejected req env [] hrej
  have ha := updateLocationMain_accepted req env' [] hacc hok
  refine ⟨?_, ?_, ?_, ?_⟩
  · intro g la ln
    rw [hmain, hr.2]
    cases env.val.shouldBan <;> simp
  · rw [hmain, hr.1]
  · rw [hmain', ha.1]
  · rw [hmain, hmain', hr.1, ha.1]

/-- A concrete instance of `claim_C1`: user 0 not in ghost mode,
rejected and accepted runs at coordinate (10, 10). -/
theorem claim_C1_witness :
    (∀ g la ln, LocAction.createLocation g la ln ∉
      (updateLocation ⟨10, 10⟩ ⟨none, 0, ⟨false, false⟩, false, false, false⟩).2) ∧
      (updateLocation ⟨10, 10⟩ ⟨none, 0, ⟨false, false⟩, false, false, false⟩).1 =
        ⟨200, updatedBody⟩ ∧
      (updateLocation ⟨10, 10⟩ ⟨none, 0, ⟨true, false⟩, false, false, false⟩).1 =
        ⟨200, updatedBody⟩ ∧
      (updateLocation ⟨10, 10⟩ ⟨none, 0, ⟨false, false⟩, false, false, false⟩).1 =
        (updateLocation ⟨10, 10⟩ ⟨none, 0, ⟨true, false⟩, false, false, false⟩).1 :=
  claim_C1 ⟨10, 10⟩ _ _ (by constructor <;> norm_num)
    (fun u h => Option.noConfusion h) rfl
    (fun u h => Option.noConfusion h) rfl rfl

/-- Claim C10: with ghost mode enabled and not yet expired the handler
answers `200 {"status":"ghost"}` with no monitor call and no store
write; with the expiry passed it toggles ghost mode off and proceeds
through the normal check-and-persist path. -/
theorem claim_C10 (req : UpdateLocReq) (env : UpdateLocEnv) (u : GhostUser)
    (hrange : inRange req) (hu : env.userLookup = some u)
    (hg : u.isGhostMode = true) :
    (¬ (u.expiresValid = true ∧ u.expiresAt < env.now) →
      (updateLocation req env).1 = ⟨200, ghostBody⟩ ∧
        (updateLocation req env).2 = []) ∧
      ((u.expiresValid = true ∧ u.expiresAt < env.now) →
        LocAction.toggleGhostOff ∈ (updateLocation req env).2 ∧
          LocAction.validateMovement ∈ (updateLocation req env).2 ∧
          (env.val.allowed = true → env.createLocErr = false →
            LocAction.createLocation
              (truncate7 (geohashEncode req.latitude req.longitude))
              req.latitude req.longitude ∈ (updateLocation req env).2 ∧
              (updateLocation req env).1 = ⟨200, updatedBody⟩)) := by
  constructor
  · intro hlive
    have hcond : (u.expiresValid && decide (u.expiresAt < env.now)) = false := by
      rcases hv : u.expiresValid with _ | _
      · simp
      · simp only [Bool.true_and]
        simp only [decide_eq_false_iff_not]
        intro hlt
        exact hlive ⟨hv, hlt⟩
    simp [updateLocation, hu, hg, hcond]
  · intro hexp
    have hcond : (u.expiresValid && decide (u.expiresAt < env.now)) = true := by
      simp [hexp.1, hexp.2]
    have hform : updateLocation req env =
        updateLocationMain req env [LocAction.toggleGhostOff] := by
      simp [updateLocation, hu, hg, hcond]
    refine ⟨?_, ?_, ?_⟩
    · rw [hform]
      rcases ha : env.val.allowed with _ | _
      · rw [(updateLocationMain_rejected req env _ ha).2]
        cases env.val.shouldBan <;> simp
      · cases hce : env.createLocErr <;>
          simp [updateLocationMain, ha, hce]
    · rw [hform]
      rcases ha : env.val.allowed with _ | _
      · rw [(updateLocationMain_rejected req env _ ha).2]
        cases env.val.shouldBan <;> simp
      · cases hce : env.createLocErr <;>
          simp [updateLocationMain, ha, hce]
    · intro ha hok
      have h := updateLocationMain_accepted req env [LocAction.toggleGhostOff] ha hok
      rw [hform, h.1, h.2]
      simp

/-- A concrete instance of `claim_C10`: ghost mode with no expiry set
stays ghosted and makes no call at all. -/
theorem claim_C10_witness :
    (¬ ((false : Bool) = true ∧ (0 : Int) < 5) →
      (updateLocation ⟨10, 10⟩
        ⟨some ⟨true, false, 0⟩, 5, ⟨true, false⟩, false, false, false⟩).1 =
        ⟨200, ghostBody⟩ ∧
      (updateLocation ⟨10, 10⟩
        ⟨some ⟨true, false, 0⟩, 5, ⟨true, false⟩, false, false, false⟩).2 = []) ∧
      (((false : Bool) = true ∧ (0 : Int) < 5) →
        LocAction.toggleGhostOff ∈ (updateLocation ⟨10, 10⟩
          ⟨some ⟨true, false, 0⟩, 5, ⟨true, false⟩, false, false, false⟩).2 ∧
          LocAction.validateMovement ∈ (updateLocation ⟨10, 10⟩
            ⟨some ⟨true, false, 0⟩, 5, ⟨true, false⟩, false, false, false⟩).2 ∧
          ((true : Bool) = true → (false : Bool) = false →
            LocAction.createLocation (truncate7 (geohashEncode 10 10)) 10 10 ∈
              (updateLocation ⟨10, 10⟩
                ⟨some ⟨true, false, 0⟩, 5, ⟨true, false⟩, false, false, false⟩).2 ∧
              (updateLocation ⟨10, 10⟩
                ⟨some ⟨true, false, 0⟩, 5, ⟨true, false⟩, false, false, false⟩).1 =
                ⟨200, updatedBody⟩)) :=
  claim_C10 ⟨10, 10⟩
    ⟨some ⟨true, false, 0⟩, 5, ⟨true, false⟩, false, false, false⟩
    ⟨true, false, 0⟩ (by constructor <;> norm_num) rfl rfl

/-- Counterexample to claim C7 as stated: a connection whose read
deadline was set at time 0 receives an ordinary data frame at time 50;
the loop body issues no `SetReadDeadline`, so the deadline stays at 60
instead of being refreshed to 110. Only the pong handler refreshes
the deadline. -/
theorem claim_C7_counterexample :
    ¬ (dataFrameHandle (readPumpInit 0) 50).deadline = 50 + pongWait := by
  decide

/-- Claim C7 (amended): the inbound loop sets a 4096-byte read limit
and an initial 60-second read deadline; the deadline is refreshed by
pong liveness acknowledgments, and only by those — an ordinary data
frame leaves the connection read state unchanged. -/
theorem claim_C7_amended (st : ConnState) (t now : Int) :
    (readPumpInit now).readLimit = 4096 ∧
      (readPumpInit now).deadline = now + pongWait ∧
      (pongHandle st t).deadline = t + pongWait ∧
      dataFrameHandle st t = st :=
  ⟨rfl, rfl, rfl, rfl⟩

/-- Claim C8: the feed-cache key `getFeed` reads for a viewer at `p`
and the key `CreateStory`/`DeleteStory` invalidate for a story at `q`
are both `"feed:"` plus the 5-character truncation of the coordinate's
geohash, so they coincide whenever the 5-character geohash prefixes
coincide — and then deleting the invalidation key removes the viewer's
cached feed entry. -/
theorem claim_C8 (plat plng qlat qlng : ℚ) (cache : List (String × String))
    (hpre5 : truncate5 (geohashEncode plat plng) =
      truncate5 (geohashEncode qlat qlng)) :
    feedCacheKey plat plng = createStoryInvalidationKey qlat qlng ∧
      feedCacheKey plat plng =
        deleteStoryInvalidationKey (geohashEncode qlat qlng) ∧
      redisGet (redisDel cache (createStoryInvalidationKey qlat qlng))
        (feedCacheKey plat plng) = none := by
  have hkey : feedCacheKey plat plng = createStoryInvalidationKey qlat qlng := by
    unfold feedCacheKey createStoryInvalidationKey invalidateFeedCacheKey
    rw [hpre5]
  refine ⟨hkey, ?_, ?_⟩
  · unfold feedCacheKey deleteStoryInvalidationKey invalidateFeedCacheKey
    rw [hpre5]
  · rw [hkey]
    exact redisGet_redisDel cache _

/-- A concrete instance of `claim_C8` at coordinate (25, 35) with a
one-entry cache. -/
theorem claim_C8_witness :
    feedCacheKey 25 35 = createStoryInvalidationKey 25 35 ∧
      feedCacheKey 25 35 = deleteStoryInvalidationKey (geohashEncode 25 35) ∧
      redisGet (redisDel [("feed:abcde", "payload")]
        (createStoryInvalidationKey 25 35)) (feedCacheKey 25 35) = none :=
  claim_C8 25 35 25 35 [("feed:abcde", "payload")] rfl

/-- Claim C9: `SendToUser` issues a single `XAdd` on the shared stream
`locolive:stream:routing` with exactly the fields `target_user_id`
(the target's id rendered as a string) and `payload`, capped
approximately at 100000 entries; the appended entry lands at the end
of the stream, the stream never exceeds the cap, and an append failure
leaves the stream unchanged while the caller observes the same
(error-free) return either way — `SendToUser` returns nothing. -/
theorem claim_C9 (st : StreamSt) (u : Nat) (m : String) :
    (sendToUserCmd u m).stream = streamKey ∧
      (sendToUserCmd u m).values =
        [("target_user_id", toString u), ("payload", m)] ∧
      (sendToUserCmd u m).maxLen = 100000 ∧
      (sendToUserCmd u m).approx = true ∧
      (∃ front, (sendToUser st false u m).1.entries =
        front ++ [⟨st.nextId, some (toString u), some m⟩]) ∧
      (sendToUser st false u m).1.entries.length ≤ 100000 ∧
      (sendToUser st true u m).1 = st := by
  have hok : (sendToUser st false u m).1 =
      { entries := (st.entries ++
          [({ eid := st.nextId, target := some (toString u),
              payload := some m } : Entry)]).drop
            ((st.entries.length + 1) - 100000),
        nextId := st.nextId + 1 } := by
    unfold sendToUser xadd sendToUserCmd
    simp
  have hlen : (st.entries.length + 1) - 100000 ≤ st.entries.length := by
    omega
  refine ⟨rfl, rfl, rfl, rfl, ?_, ?_, rfl⟩
  · refine ⟨st.entries.drop ((st.entries.length + 1) - 100000), ?_⟩
    rw [hok]
    simp only
    rw [List.drop_append_of_le_length hlen]
  · rw [hok]
    simp only [List.length_drop, List.length_append, List.length_singleton]
    omega

end LocoLive
